import Mathlib

/-!
Verification development for the hyperchess live game-room engine
(single source file `app.py`).

The core under verification is the room state machine: `GameRoom.apply_move`
(clock charging, time forfeit, move parsing/legality, move application,
increment crediting, terminal detection), the websocket move-handling step,
`finalize_game` with the Elo update, and the automated-opponent move chooser
`choose_ai_move` / `random_ai_move`.

The chess rules library (`python-chess`) is an external collaborator
("Rules Oracle") and is modelled as an abstract interface `Rules`; every
definition below is translated from `app.py` itself.  Wall-clock readings
(`time.time()`) are passed in as explicit rational parameters; Python floats
are modelled as exact rationals, and the float `pow` in the Elo formula as
real exponentiation.
-/

/-- The two sides of a room, `"white"` and `"black"` in the source. -/
inductive Side where
  | white
  | black
deriving DecidableEq, Repr

/-- The opposite side: `"black" if side == "white" else "white"`. -/
def Side.other : Side → Side
  | .white => .black
  | .black => .white

/-- The string name of a side, as used in the Python dictionaries. -/
def Side.name : Side → String
  | .white => "white"
  | .black => "black"

/-- The per-side remaining-time dictionary `self.remaining`. -/
structure Clocks where
  white : ℚ
  black : ℚ
deriving DecidableEq, Repr

/-- Dictionary read `self.remaining[side]`. -/
def Clocks.get (c : Clocks) : Side → ℚ
  | .white => c.white
  | .black => c.black

/-- Dictionary write `self.remaining[side] = v`. -/
def Clocks.set (c : Clocks) : Side → ℚ → Clocks
  | .white, v => { c with white := v }
  | .black, v => { c with black := v }

/-- Interface of the external chess-rules collaborator (`python-chess`),
consumed by `app.py` but not implemented by it.  `Pos` stands for
`chess.Board` values, `Move` for `chess.Move` values.
`fromUci` models `chess.Move.from_uci` (exception modelled as `none`);
`parseSan` models `board.parse_san`; `legalMoves` models
`board.legal_moves` as a list; `push` models `board.push`; `isGameOver`
models `board.is_game_over()`; `result` models `board.result()` with
`none` standing for a falsy (empty) result string; `fen` models
`board.fen()`, `ofFen` models `chess.Board(fen)`, `uciOf` models
`move.uci()`, and `start` models the initial position `chess.Board()`. -/
structure Rules (Pos Move : Type) where
  fromUci : String → Option Move
  parseSan : Pos → String → Option Move
  legalMoves : Pos → List Move
  push : Pos → Move → Pos
  isGameOver : Pos → Bool
  result : Pos → Option String
  fen : Pos → String
  ofFen : String → Pos
  uciOf : Move → String
  start : Pos

/-- State of one `GameRoom` instance (fields of `GameRoom.__init__`).
Websocket handles are modelled as `Nat` identifiers.  `wsWhite`/`wsBlack`
model `self.players`, `nameWhite`/`nameBlack` model
`self.players_usernames`. -/
structure GameRoom (Pos : Type) where
  roomId : String
  game : Pos
  wsWhite : Option Nat
  wsBlack : Option Nat
  nameWhite : Option String
  nameBlack : Option String
  spectators : List Nat
  started : Bool
  timeControl : ℤ
  increment : ℤ
  remaining : Clocks
  lastMoveTs : Option ℚ
  turn : Side
  isPrivate : Bool
  moveList : List String
  result : Option String
deriving DecidableEq

/-- Seat-name read `self.players_usernames[side]`. -/
def GameRoom.nameOf {Pos : Type} (room : GameRoom Pos) : Side → Option String
  | .white => room.nameWhite
  | .black => room.nameBlack

/-- Embedding of `GameRoom.__init__(room_id, time_control_seconds, increment_seconds, is_private)`:
fresh board, empty seats and spectators, both clocks at the time control,
no last-move timestamp, white to move, no moves, no result. -/
def GameRoom.init {Pos Move : Type} (R : Rules Pos Move) (roomId : String)
    (timeControlSeconds incrementSeconds : ℤ) (isPrivate : Bool) : GameRoom Pos :=
  { roomId := roomId
    game := R.start
    wsWhite := none
    wsBlack := none
    nameWhite := none
    nameBlack := none
    spectators := []
    started := false
    timeControl := timeControlSeconds
    increment := incrementSeconds
    remaining := { white := (timeControlSeconds : ℚ), black := (timeControlSeconds : ℚ) }
    lastMoveTs := none
    turn := Side.white
    isPrivate := isPrivate
    moveList := []
    result := none }

/-- Embedding of `GameRoom.add_player(ws, username)`: fill white if vacant, else black,
else register as spectator; returns the assigned role string. -/
def GameRoom.add_player {Pos : Type} (room : GameRoom Pos) (ws : Nat) (username : String) :
    GameRoom Pos × String :=
  if room.wsWhite.isNone then
    ({ room with wsWhite := some ws, nameWhite := some username }, "white")
  else if room.wsBlack.isNone then
    ({ room with wsBlack := some ws, nameBlack := some username }, "black")
  else
    ({ room with spectators := room.spectators ++ [ws] }, "spectator")

/-- Embedding of `GameRoom.start_if_ready()`: if both seats are occupied, set
`started`, stamp `last_move_ts = time.time()` (the explicit `now`
parameter) and set `turn = "white"`. -/
def GameRoom.start_if_ready {Pos : Type} (room : GameRoom Pos) (now : ℚ) :
    GameRoom Pos × Bool :=
  if room.wsWhite.isSome ∧ room.wsBlack.isSome then
    ({ room with started := true, lastMoveTs := some now, turn := Side.white }, true)
  else
    (room, false)

/-- Python truthiness of `self.last_move_ts` (`None` and `0.0` are falsy). -/
def tsTruthy : Option ℚ → Bool
  | none => false
  | some t => t != 0

/-- The part of `GameRoom.apply_move` after the clock charge / forfeit
check: parse the UCI text (`chess.Move.from_uci`, exception → invalid
format), test membership in `legal_moves`, then push the move, append it
to `move_list`, credit the increment to the mover, flip `turn`, stamp the
last-move timestamp with the second `time.time()` reading `now2`, and
record the oracle result if the game is over. -/
def applyMoveRest {Pos Move : Type} [DecidableEq Move] (R : Rules Pos Move)
    (room : GameRoom Pos) (uciMove : String) (now2 : ℚ) :
    GameRoom Pos × Bool × String :=
  match R.fromUci uciMove with
  | none => (room, false, "invalid move format")
  | some mv =>
    if mv ∈ R.legalMoves room.game then
      let g2 := R.push room.game mv
      let mover := room.turn
      let rem2 := room.remaining.set mover (room.remaining.get mover + (room.increment : ℚ))
      let room2 := { room with
        game := g2
        moveList := room.moveList ++ [uciMove]
        remaining := rem2
        turn := room.turn.other
        lastMoveTs := some now2 }
      let room3 :=
        if R.isGameOver g2 then
          { room2 with result := some ((R.result g2).getD "1/2-1/2") }
        else room2
      (room3, true, R.fen g2)
    else
      (room, false, "illegal move")

/-- Embedding of `GameRoom.apply_move(uci_move)`.  `now` is the `time.time()` reading
taken on entry, `now2` the one taken when stamping the last-move
timestamp after a successful push.  If a last-move timestamp is set
(truthy; `self.turn` is always a nonempty string), the elapsed time is
subtracted from the side to move; a strictly negative remainder forfeits:
the opposing side wins, the result is recorded and no move is applied.
Otherwise the move text is parsed and applied by `applyMoveRest`. -/
def applyMove {Pos Move : Type} [DecidableEq Move] (R : Rules Pos Move)
    (room : GameRoom Pos) (uciMove : String) (now now2 : ℚ) :
    GameRoom Pos × Bool × String :=
  if tsTruthy room.lastMoveTs then
    let elapsed := now - room.lastMoveTs.getD 0
    let rem1 := room.remaining.set room.turn (room.remaining.get room.turn - elapsed)
    if rem1.get room.turn < 0 then
      let winner := room.turn.other
      ({ room with
          remaining := rem1
          result := some (if winner = Side.white then "1-0" else "0-1") },
       false, "time forfeit; winner " ++ winner.name)
    else
      applyMoveRest R { room with remaining := rem1 } uciMove now2
  else
    applyMoveRest R room uciMove now2

/-- Replaying a recorded `move_list` from a position: parse each UCI text
with the oracle and push it in order (the deterministic reconstruction
procedure the spec refers to). -/
def replay {Pos Move : Type} (R : Rules Pos Move) (p : Pos) : List String → Option Pos
  | [] => some p
  | u :: rest =>
    match R.fromUci u with
    | none => none
    | some mv => replay R (R.push p mv) rest

/-- Run a sequence of `apply_move` requests (move text with the two
wall-clock readings of that call) against a room; returns the final room
and the number of successfully applied moves. -/
def runMoves {Pos Move : Type} [DecidableEq Move] (R : Rules Pos Move) :
    GameRoom Pos → List (String × ℚ × ℚ) → GameRoom Pos × Nat
  | room, [] => (room, 0)
  | room, (u, n1, n2) :: rest =>
    let out := applyMove R room u n1 n2
    let tail := runMoves R out.1 rest
    (tail.1, (if out.2.1 then 1 else 0) + tail.2)

/-- A small concrete instance of the external rules interface, used to
evaluate the engine on closed inputs: positions are the list of moves
played, every 4-character string parses, the same fixed two moves are
legal until four moves have been played, after which the game is over
with a drawn result. -/
def toyRules : Rules (List String) String :=
  { fromUci := fun s => if s.length = 4 then some s else none
    parseSan := fun _ s => if s.length = 3 then some (s ++ "x") else none
    legalMoves := fun p => if p.length < 4 then ["e2e4", "e7e5"] else []
    push := fun p m => p ++ [m]
    isGameOver := fun p => decide (4 ≤ p.length)
    result := fun p => if 4 ≤ p.length then some "1/2-1/2" else none
    fen := fun p => String.intercalate " " p
    ofFen := fun s => if s = "" then [] else s.splitOn " "
    uciOf := fun m => m
    start := [] }

/-- One record of the `users` store: `{"rating": ..., "games_played": ...}`
(the id and password hash are irrelevant to the core). -/
structure UserRec where
  rating : ℤ
  gamesPlayed : ℕ
deriving DecidableEq, Repr

/-- The `users` store, a dictionary from username to record, modelled as
an association list with distinct keys. -/
abbrev Users := List (String × UserRec)

/-- Dictionary membership / read `users[name]`. -/
def lookupUser : Users → String → Option UserRec
  | [], _ => none
  | (k, v) :: rest, name => if k = name then some v else lookupUser rest name

/-- Dictionary write `users[name] = v` (updates the existing key, inserts
at the end otherwise, like a Python dict). -/
def setUser : Users → String → UserRec → Users
  | [], name, v => [(name, v)]
  | (k, w) :: rest, name, v =>
    if k = name then (k, v) :: rest else (k, w) :: setUser rest name v

/-- Embedding of `expected_score(r1, r2) = 1.0 / (1 + pow(10, (r2 - r1) / 400.0))`,
the float computation modelled over the reals. -/
noncomputable def expected_score (r1 r2 : ℤ) : ℝ :=
  1 / (1 + (10 : ℝ) ^ (((r2 : ℝ) - (r1 : ℝ)) / 400))

/-- Embedding of `new_elo(r, opp, score, k) = int(round(r + k * (score - expected_score(r, opp))))`;
the source's `k` defaults to 32 and every call site uses that default. -/
noncomputable def new_elo (r opp : ℤ) (score : ℚ) (k : ℤ) : ℤ :=
  round ((r : ℝ) + (k : ℝ) * ((score : ℝ) - expected_score r opp))

/-- White's score in `finalize_game`: `s_white = 0.5`, overridden to `1.0`
for `"1-0"`, `0.0` for `"0-1"`, `0.5` for `"1/2-1/2"`. -/
def scoreWhite (res : Option String) : ℚ :=
  if res = some "1-0" then 1 else if res = some "0-1" then 0 else 1 / 2

/-- Black's score in `finalize_game`, symmetric to `scoreWhite`. -/
def scoreBlack (res : Option String) : ℚ :=
  if res = some "1-0" then 0 else if res = some "0-1" then 1 else 1 / 2

/-- Embedding of `finalize_game(room)` restricted to its effect on the `users` store
(the game-summary persistence is external I/O).  Scores are derived from
`room.result`, defaulting to a half point each; ratings update only when
both seat usernames are truthy, present in the store and distinct from
`"AI"`.  Both new ratings are computed from the ratings read before
either write; the writes then happen white first, black second, each
re-reading the games-played counter at write time as the source does. -/
noncomputable def finalize_game {Pos : Type} (room : GameRoom Pos) (users : Users) : Users :=
  let sWhite : ℚ := scoreWhite room.result
  let sBlack : ℚ := scoreBlack room.result
  match room.nameWhite, room.nameBlack with
  | some uw, some ub =>
    match lookupUser users uw, lookupUser users ub with
    | some recW, some recB =>
      if uw ≠ "" ∧ ub ≠ "" ∧ uw ≠ "AI" ∧ ub ≠ "AI" then
        let nr1 := new_elo recW.rating recB.rating sWhite 32
        let nr2 := new_elo recB.rating recW.rating sBlack 32
        let gW := ((lookupUser users uw).map (fun u => u.gamesPlayed)).getD 0
        let users1 := setUser users uw { rating := nr1, gamesPlayed := gW + 1 }
        let gB := ((lookupUser users1 ub).map (fun u => u.gamesPlayed)).getD 0
        setUser users1 ub { rating := nr2, gamesPlayed := gB + 1 }
      else users
    | _, _ => users
  | _, _ => users

/-- Boolean substring containment, modelling Python's `needle in hay`. -/
def containsSub (needle hay : String) : Bool :=
  hay.toList.tails.any (fun t => needle.toList.isPrefixOf t)

/-- The `"move"`-message branch of the websocket handler `ws_room`
(its effect on the room and the users store; broadcasts are I/O).  The
`role` returned by `add_player` for the sending connection is taken as a
parameter to record that the source never consults it: the message is fed
to `apply_move` whatever the sender's role.  A failed call whose reason
contains `"time forfeit"` broadcasts game-over and finalizes; any other
failure only notifies the sender; a successful call finalizes when a
result is recorded. -/
noncomputable def wsMoveStep {Pos Move : Type} [DecidableEq Move] (R : Rules Pos Move)
    (role : String) (room : GameRoom Pos) (users : Users) (uci : String)
    (now now2 : ℚ) : GameRoom Pos × Users :=
  let out := applyMove R room uci now now2
  let room1 := out.1
  if out.2.1 then
    if room1.result.isSome then (room1, finalize_game room1 users) else (room1, users)
  else
    if containsSub "time forfeit" out.2.2 then (room1, finalize_game room1 users)
    else (room1, users)

/-- Embedding of `random_ai_move(fen)`: rebuild the board from the FEN text, list the
legal moves, return `None` when there are none, else the UCI text of a
chosen legal move.  `random.choice` is modelled by an explicit index
`pick`, reduced modulo the number of legal moves. -/
def random_ai_move {Pos Move : Type} (R : Rules Pos Move) (pick : ℕ) (fen : String) :
    Option String :=
  let board := R.ofFen fen
  match R.legalMoves board with
  | [] => none
  | m :: ms =>
    some (R.uciOf ((m :: ms).get ⟨pick % (m :: ms).length, Nat.mod_lt _ (Nat.succ_pos _)⟩))

/-- Embedding of `choose_ai_move(fen)`: the external suggestion (already `None` on any
transport error) is passed in as `suggestion`.  A truthy suggestion is
first tried as UCI when it is 4 or 5 alphanumeric characters and parses,
accepted only if legal; otherwise tried as SAN via the oracle, accepted
only if legal; any failure falls through to `random_ai_move`. -/
def choose_ai_move {Pos Move : Type} [DecidableEq Move] (R : Rules Pos Move)
    (suggestion : Option String) (pick : ℕ) (fen : String) : Option String :=
  match suggestion with
  | none => random_ai_move R pick fen
  | some candidate =>
    if candidate.isEmpty then random_ai_move R pick fen
    else
      let board := R.ofFen fen
      let tryUci : Option String :=
        if (candidate.length = 4 ∨ candidate.length = 5) ∧
            candidate.toList.all Char.isAlphanum then
          match R.fromUci candidate with
          | some mv => if mv ∈ R.legalMoves board then some (R.uciOf mv) else none
          | none => none
        else none
      match tryUci with
      | some u => some u
      | none =>
        match R.parseSan board candidate with
        | some mv =>
          if mv ∈ R.legalMoves board then some (R.uciOf mv) else random_ai_move R pick fen
        | none => random_ai_move R pick fen

/-- The `init` message sent to a newly connecting participant
(`{"type":"init","fen":...,"remaining":...,"turn":...}`, line 534): the
observable projection of the committed room state. -/
def initPayload {Pos Move : Type} (R : Rules Pos Move) (room : GameRoom Pos) :
    String × Clocks × Side :=
  (R.fen room.game, room.remaining, room.turn)

/-- A concrete active room over `toyRules`: both seats bound to real
registered players, clocks at 100 seconds each, increment 2, last-move
timestamp 5, white to move. -/
def roomA : GameRoom (List String) :=
  { roomId := "a"
    game := []
    wsWhite := some 1
    wsBlack := some 2
    nameWhite := some "alice"
    nameBlack := some "bob"
    spectators := []
    started := true
    timeControl := 100
    increment := 2
    remaining := { white := 100, black := 100 }
    lastMoveTs := some 5
    turn := Side.white
    isPrivate := false
    moveList := []
    result := none }

/-- A finished copy of `roomA`, recorded as a win for white. -/
def roomDone : GameRoom (List String) := { roomA with result := some "1-0" }

/-- A users store holding the two players of `roomA` at equal ratings. -/
def usersAB : Users :=
  [("alice", { rating := 1200, gamesPlayed := 0 }),
   ("bob", { rating := 1200, gamesPlayed := 0 })]

/-- A users store with unequal games-played counters. -/
def usersAB2 : Users :=
  [("alice", { rating := 1200, gamesPlayed := 0 }),
   ("bob", { rating := 1200, gamesPlayed := 3 })]

/-- Joining two connections to a fresh room: they take the two seats. -/
def roomTwoSeated : GameRoom (List String) :=
  (((GameRoom.init toyRules "r1" 300 2 false).add_player 1 "alice").1.add_player 2 "bob").1

/-- A third join on the full room, returning the room and the assigned
role (a spectator registration). -/
def spectatorJoin : GameRoom (List String) × String := roomTwoSeated.add_player 3 "carol"

/-- The room holding a spectator, after `start_if_ready` stamped the
last-move timestamp at 10. -/
def roomWithSpectator : GameRoom (List String) := (spectatorJoin.1.start_if_ready 10).1

/-! ### Basic lemmas about the clock dictionary and the charge/forfeit path -/

theorem Clocks.get_set_self (c : Clocks) (s : Side) (v : ℚ) : (c.set s v).get s = v := by
  cases s <;> rfl

theorem Clocks.get_set_other (c : Clocks) (s : Side) (v : ℚ) :
    (c.set s v).get s.other = c.get s.other := by
  cases s <;> rfl

theorem tsTruthy_some {ts : ℚ} (h : ts ≠ 0) : tsTruthy (some ts) = true := by
  simp [tsTruthy, h]

theorem applyMoveRest_parse_fail {Pos Move : Type} [DecidableEq Move] (R : Rules Pos Move)
    (room : GameRoom Pos) (uci : String) (now2 : ℚ) (h : R.fromUci uci = none) :
    applyMoveRest R room uci now2 = (room, false, "invalid move format") := by
  simp [applyMoveRest, h]

theorem applyMoveRest_illegal {Pos Move : Type} [DecidableEq Move] (R : Rules Pos Move)
    (room : GameRoom Pos) (uci : String) (now2 : ℚ) (mv : Move)
    (h : R.fromUci uci = some mv) (hl : mv ∉ R.legalMoves room.game) :
    applyMoveRest R room uci now2 = (room, false, "illegal move") := by
  simp [applyMoveRest, h, hl]

theorem applyMoveRest_legal {Pos Move : Type} [DecidableEq Move] (R : Rules Pos Move)
    (room : GameRoom Pos) (uci : String) (now2 : ℚ) (mv : Move)
    (h : R.fromUci uci = some mv) (hl : mv ∈ R.legalMoves room.game) :
    applyMoveRest R room uci now2 =
      (let room2 : GameRoom Pos := { room with
        game := R.push room.game mv
        moveList := room.moveList ++ [uci]
        remaining := room.remaining.set room.turn
          (room.remaining.get room.turn + (room.increment : ℚ))
        turn := room.turn.other
        lastMoveTs := some now2 }
      ((if R.isGameOver (R.push room.game mv) then
          { room2 with result := some ((R.result (R.push room.game mv)).getD "1/2-1/2") }
        else room2), true, R.fen (R.push room.game mv))) := by
  simp [applyMoveRest, h, hl]

theorem applyMove_forfeit {Pos Move : Type} [DecidableEq Move] (R : Rules Pos Move)
    (room : GameRoom Pos) (uci : String) (now now2 ts : ℚ)
    (hts : room.lastMoveTs = some ts) (hts0 : ts ≠ 0)
    (hneg : room.remaining.get room.turn - (now - ts) < 0) :
    applyMove R room uci now now2 =
      ({ room with
          remaining := room.remaining.set room.turn (room.remaining.get room.turn - (now - ts))
          result := some (if room.turn.other = Side.white then "1-0" else "0-1") },
       false, "time forfeit; winner " ++ room.turn.other.name) := by
  simp only [applyMove, hts, tsTruthy_some hts0, if_true, Option.getD_some]
  rw [if_pos]
  rw [Clocks.get_set_self]
  exact hneg

theorem applyMove_no_forfeit {Pos Move : Type} [DecidableEq Move] (R : Rules Pos Move)
    (room : GameRoom Pos) (uci : String) (now now2 ts : ℚ)
    (hts : room.lastMoveTs = some ts) (hts0 : ts ≠ 0)
    (hpos : 0 ≤ room.remaining.get room.turn - (now - ts)) :
    applyMove R room uci now now2 =
      applyMoveRest R
        { room with
          remaining := room.remaining.set room.turn
            (room.remaining.get room.turn - (now - ts)) }
        uci now2 := by
  simp only [applyMove, hts, tsTruthy_some hts0, if_true, Option.getD_some]
  rw [if_neg]
  rw [Clocks.get_set_self]
  exact not_lt.mpr hpos

theorem applyMove_no_ts {Pos Move : Type} [DecidableEq Move] (R : Rules Pos Move)
    (room : GameRoom Pos) (uci : String) (now now2 : ℚ)
    (hts : room.lastMoveTs = none) :
    applyMove R room uci now now2 = applyMoveRest R room uci now2 := by
  simp [applyMove, hts, tsTruthy]

theorem applyMove_falsy_ts {Pos Move : Type} [DecidableEq Move] (R : Rules Pos Move)
    (room : GameRoom Pos) (uci : String) (now now2 : ℚ)
    (h : tsTruthy room.lastMoveTs = false) :
    applyMove R room uci now now2 = applyMoveRest R room uci now2 := by
  simp [applyMove, h]

theorem applyMoveRest_false_room {Pos Move : Type} [DecidableEq Move] (R : Rules Pos Move)
    (room1 : GameRoom Pos) (uci : String) (now2 : ℚ)
    (hok : (applyMoveRest R room1 uci now2).2.1 = false) :
    (applyMoveRest R room1 uci now2).1 = room1 := by
  cases hmv : R.fromUci uci with
  | none => rw [applyMoveRest_parse_fail R room1 uci now2 hmv]
  | some mv =>
    by_cases hl : mv ∈ R.legalMoves room1.game
    · rw [applyMoveRest_legal R room1 uci now2 mv hmv hl] at hok
      simp at hok
    · rw [applyMoveRest_illegal R room1 uci now2 mv hmv hl]

theorem tsTruthy_exists {o : Option ℚ} (h : tsTruthy o = true) :
    ∃ ts, o = some ts ∧ ts ≠ 0 := by
  cases o with
  | none => simp [tsTruthy] at h
  | some t =>
    refine ⟨t, rfl, ?_⟩
    simpa [tsTruthy] using h

/-- C1 counterexample: in the concrete room `roomA` (last-move timestamp 5,
white to move with 100 seconds), the malformed move text `"zz"` at
wall-clock 6 is rejected with `"invalid move format"`, yet the call has
changed the clocks: white has been charged the elapsed second. -/
theorem rejected_move_clock_changed_cex :
    (applyMove toyRules roomA "zz" 6 6).2.1 = false ∧
    (applyMove toyRules roomA "zz" 6 6).2.2 = "invalid move format" ∧
    (applyMove toyRules roomA "zz" 6 6).1.remaining.get Side.white = 99 ∧
    roomA.remaining.get Side.white = 100 ∧
    (applyMove toyRules roomA "zz" 6 6).1.remaining ≠ roomA.remaining := by
  norm_num [applyMove, applyMoveRest, toyRules, roomA, tsTruthy, Clocks.set, Clocks.get,
    show ("zz" : String).length = 2 from rfl]

/-- C1 (amended): a call rejected as malformed or illegal leaves
`position`, `moveHistory`, `turn`, the recorded result and the
non-moving side's clock unchanged, but the side to move has been charged
the elapsed wall-clock time since the last-move timestamp (zero when no
truthy timestamp is set), and this charge persists despite the
rejection. -/
theorem rejected_move_preserves_all_but_charged_clock
    {Pos Move : Type} [DecidableEq Move] (R : Rules Pos Move)
    (room : GameRoom Pos) (uci : String) (now now2 : ℚ)
    (hok : (applyMove R room uci now now2).2.1 = false)
    (hres : (applyMove R room uci now now2).2.2 = "invalid move format" ∨
            (applyMove R room uci now now2).2.2 = "illegal move") :
    (applyMove R room uci now now2).1.game = room.game ∧
    (applyMove R room uci now now2).1.moveList = room.moveList ∧
    (applyMove R room uci now now2).1.turn = room.turn ∧
    (applyMove R room uci now now2).1.result = room.result ∧
    (applyMove R room uci now now2).1.remaining.get room.turn.other
      = room.remaining.get room.turn.other ∧
    (applyMove R room uci now now2).1.remaining.get room.turn
      = room.remaining.get room.turn -
          (if tsTruthy room.lastMoveTs then now - room.lastMoveTs.getD 0 else 0) := by
  by_cases ht : tsTruthy room.lastMoveTs = true
  · obtain ⟨ts, hts, hts0⟩ := tsTruthy_exists ht
    by_cases hneg : room.remaining.get room.turn - (now - ts) < 0
    · exfalso
      rw [applyMove_forfeit R room uci now now2 ts hts hts0 hneg] at hres
      dsimp only at hres
      rcases hres with h | h <;> cases hturn : room.turn <;> rw [hturn] at h <;>
        exact absurd h (by decide)
    · have hE := applyMove_no_forfeit R room uci now now2 ts hts hts0 (not_lt.mp hneg)
      rw [hE] at hok ⊢
      have hroom := applyMoveRest_false_room R _ uci now2 hok
      rw [hroom]
      refine ⟨rfl, rfl, rfl, rfl, ?_, ?_⟩
      · exact Clocks.get_set_other room.remaining room.turn _
      · rw [Clocks.get_set_self, ht, if_pos rfl, hts]
        rfl
  · have ht' : tsTruthy room.lastMoveTs = false := by
      simpa using ht
    have hE := applyMove_falsy_ts R room uci now now2 ht'
    rw [hE] at hok ⊢
    have hroom := applyMoveRest_false_room R _ uci now2 hok
    rw [hroom]
    refine ⟨rfl, rfl, rfl, rfl, rfl, ?_⟩
    rw [ht', if_neg (by simp), sub_zero]

theorem ite_result_remaining {Pos : Type} (c : Prop) [Decidable c]
    (room2 : GameRoom Pos) (r : Option String) :
    (if c then { room2 with result := r } else room2).remaining = room2.remaining := by
  split <;> rfl

theorem ite_result_game {Pos : Type} (c : Prop) [Decidable c]
    (room2 : GameRoom Pos) (r : Option String) :
    (if c then { room2 with result := r } else room2).game = room2.game := by
  split <;> rfl

theorem ite_result_moveList {Pos : Type} (c : Prop) [Decidable c]
    (room2 : GameRoom Pos) (r : Option String) :
    (if c then { room2 with result := r } else room2).moveList = room2.moveList := by
  split <;> rfl

theorem ite_result_turn {Pos : Type} (c : Prop) [Decidable c]
    (room2 : GameRoom Pos) (r : Option String) :
    (if c then { room2 with result := r } else room2).turn = room2.turn := by
  split <;> rfl

/-- C2: in a room with a truthy last-move timestamp, if the side to
move's remaining time is strictly negative once the elapsed wall-clock
time is charged, `apply_move` — whatever the submitted move text —
applies no move, commits the charged clock, records the win for the
opposing side and returns the forfeit failure; and the comparison is
strict: a charged remainder of exactly zero (or more) is not a
forfeit. -/
theorem time_forfeit_on_negative_clock {Pos Move : Type} [DecidableEq Move]
    (R : Rules Pos Move) (room : GameRoom Pos) (uci : String) (now now2 ts : ℚ)
    (hts : room.lastMoveTs = some ts) (hts0 : ts ≠ 0) :
    (room.remaining.get room.turn - (now - ts) < 0 →
      applyMove R room uci now now2 =
        ({ room with
            remaining := room.remaining.set room.turn
              (room.remaining.get room.turn - (now - ts))
            result := some (if room.turn.other = Side.white then "1-0" else "0-1") },
         false, "time forfeit; winner " ++ room.turn.other.name)) ∧
    (0 ≤ room.remaining.get room.turn - (now - ts) →
      (applyMove R room uci now now2).2.1 = true ∨
      (applyMove R room uci now now2).2.2 = "invalid move format" ∨
      (applyMove R room uci now now2).2.2 = "illegal move") := by
  constructor
  · intro hneg
    exact applyMove_forfeit R room uci now now2 ts hts hts0 hneg
  · intro hpos
    rw [applyMove_no_forfeit R room uci now now2 ts hts hts0 hpos]
    set room1 : GameRoom Pos :=
      { room with
        remaining := room.remaining.set room.turn
          (room.remaining.get room.turn - (now - ts)) } with hroom1
    cases hmv : R.fromUci uci with
    | none =>
      right; left
      rw [applyMoveRest_parse_fail R room1 uci now2 hmv]
    | some mv =>
      by_cases hl : mv ∈ R.legalMoves room1.game
      · left
        rw [applyMoveRest_legal R room1 uci now2 mv hmv hl]
      · right; right
        rw [applyMoveRest_illegal R room1 uci now2 mv hmv hl]

/-- Witness for C2 at a concrete input: in `roomA` (white to move with
100 seconds, last-move timestamp 5) a move attempt at wall-clock 200
forfeits: black is recorded as winner and the failure carries the
forfeit reason. -/
theorem time_forfeit_on_negative_clock_witness :
    applyMove toyRules roomA "e2e4" 200 200 =
      ({ roomA with
          remaining := roomA.remaining.set roomA.turn
            (roomA.remaining.get roomA.turn - (200 - 5))
          result := some (if roomA.turn.other = Side.white then "1-0" else "0-1") },
       false, "time forfeit; winner " ++ roomA.turn.other.name) :=
  (time_forfeit_on_negative_clock toyRules roomA "e2e4" 200 200 5 rfl
    (by norm_num)).1 (by norm_num [roomA, Clocks.get])

/-- C4 counterexample: the committed room state after the time forfeit in
`roomA` is finished (`result = "0-1"`), yet white's clock is negative in
that committed state and is exactly what the `init` payload sent to a
newly connecting participant carries. -/
theorem negative_clock_committed_cex :
    (applyMove toyRules roomA "e2e4" 200 200).1.result = some "0-1" ∧
    (applyMove toyRules roomA "e2e4" 200 200).1.remaining.get Side.white = -95 ∧
    (initPayload toyRules (applyMove toyRules roomA "e2e4" 200 200).1).2.1.get Side.white
      = -95 := by
  norm_num [applyMove, applyMoveRest, toyRules, roomA, tsTruthy, Clocks.set, Clocks.get,
    initPayload, Side.other, Side.name, show ("e2e4" : String).length = 4 from rfl]
  decide

/-- C4 (amended): a negative charged reading does trigger the forfeit —
the result is set to a win for the opposing side and no move is applied —
but the negative clock value is committed to the room state rather than
being clamped or hidden, and it appears verbatim in the `init` payload
sent to a newly connecting participant. -/
theorem forfeit_sets_result_but_commits_negative_clock {Pos Move : Type} [DecidableEq Move]
    (R : Rules Pos Move) (room : GameRoom Pos) (uci : String) (now now2 ts : ℚ)
    (hts : room.lastMoveTs = some ts) (hts0 : ts ≠ 0)
    (hneg : room.remaining.get room.turn - (now - ts) < 0) :
    (applyMove R room uci now now2).2.1 = false ∧
    (applyMove R room uci now now2).1.result
      = some (if room.turn.other = Side.white then "1-0" else "0-1") ∧
    (applyMove R room uci now now2).1.game = room.game ∧
    (applyMove R room uci now now2).1.moveList = room.moveList ∧
    (applyMove R room uci now now2).1.remaining.get room.turn
      = room.remaining.get room.turn - (now - ts) ∧
    (applyMove R room uci now now2).1.remaining.get room.turn < 0 ∧
    (initPayload R (applyMove R room uci now now2).1).2.1
      = (applyMove R room uci now now2).1.remaining := by
  rw [applyMove_forfeit R room uci now now2 ts hts hts0 hneg]
  refine ⟨rfl, rfl, rfl, rfl, ?_, ?_, rfl⟩
  · exact Clocks.get_set_self room.remaining room.turn _
  · rw [Clocks.get_set_self]
    exact hneg

/-- Witness for the amended C4 at the concrete forfeit in `roomA`. -/
theorem forfeit_sets_result_but_commits_negative_clock_witness :
    (applyMove toyRules roomA "e2e4" 200 200).2.1 = false ∧
    (applyMove toyRules roomA "e2e4" 200 200).1.result
      = some (if roomA.turn.other = Side.white then "1-0" else "0-1") ∧
    (applyMove toyRules roomA "e2e4" 200 200).1.game = roomA.game ∧
    (applyMove toyRules roomA "e2e4" 200 200).1.moveList = roomA.moveList ∧
    (applyMove toyRules roomA "e2e4" 200 200).1.remaining.get roomA.turn
      = roomA.remaining.get roomA.turn - (200 - 5) ∧
    (applyMove toyRules roomA "e2e4" 200 200).1.remaining.get roomA.turn < 0 ∧
    (initPayload toyRules (applyMove toyRules roomA "e2e4" 200 200).1).2.1
      = (applyMove toyRules roomA "e2e4" 200 200).1.remaining :=
  forfeit_sets_result_but_commits_negative_clock toyRules roomA "e2e4" 200 200 5 rfl
    (by norm_num) (by norm_num [roomA, Clocks.get])

theorem applyMoveRest_legal_fields {Pos Move : Type} [DecidableEq Move] (R : Rules Pos Move)
    (room : GameRoom Pos) (uci : String) (now2 : ℚ) (mv : Move)
    (hmv : R.fromUci uci = some mv) (hl : mv ∈ R.legalMoves room.game) :
    (applyMoveRest R room uci now2).2.1 = true ∧
    (applyMoveRest R room uci now2).1.game = R.push room.game mv ∧
    (applyMoveRest R room uci now2).1.moveList = room.moveList ++ [uci] ∧
    (applyMoveRest R room uci now2).1.turn = room.turn.other ∧
    (applyMoveRest R room uci now2).1.remaining
      = room.remaining.set room.turn (room.remaining.get room.turn + (room.increment : ℚ)) ∧
    (applyMoveRest R room uci now2).1.result
      = (if R.isGameOver (R.push room.game mv)
          then some ((R.result (R.push room.game mv)).getD "1/2-1/2") else room.result) ∧
    (applyMoveRest R room uci now2).2.2 = R.fen (R.push room.game mv) := by
  rw [applyMoveRest_legal R room uci now2 mv hmv hl]
  refine ⟨rfl, ?_, ?_, ?_, ?_, ?_, rfl⟩ <;> dsimp only <;> split <;> rfl

/-- C8: whenever `apply_move` succeeds in a room with a truthy last-move
timestamp, the mover's clock changes by exactly the configured increment
minus the elapsed time since that timestamp, and the opposing side's
clock is unchanged by the call. -/
theorem mover_clock_increment_minus_elapsed {Pos Move : Type} [DecidableEq Move]
    (R : Rules Pos Move) (room : GameRoom Pos) (uci : String) (now now2 ts : ℚ)
    (hts : room.lastMoveTs = some ts) (hts0 : ts ≠ 0)
    (hok : (applyMove R room uci now now2).2.1 = true) :
    (applyMove R room uci now now2).1.remaining.get room.turn
      = room.remaining.get room.turn + (room.increment : ℚ) - (now - ts) ∧
    (applyMove R room uci now now2).1.remaining.get room.turn.other
      = room.remaining.get room.turn.other := by
  by_cases hneg : room.remaining.get room.turn - (now - ts) < 0
  · rw [applyMove_forfeit R room uci now now2 ts hts hts0 hneg] at hok
    simp at hok
  · have hE := applyMove_no_forfeit R room uci now now2 ts hts hts0 (not_lt.mp hneg)
    rw [hE] at hok ⊢
    set room1 : GameRoom Pos :=
      { room with
        remaining := room.remaining.set room.turn
          (room.remaining.get room.turn - (now - ts)) } with hroom1
    cases hmv : R.fromUci uci with
    | none =>
      rw [applyMoveRest_parse_fail R room1 uci now2 hmv] at hok
      simp at hok
    | some mv =>
      by_cases hl : mv ∈ R.legalMoves room1.game
      · obtain ⟨-, -, -, -, hrem, -, -⟩ := applyMoveRest_legal_fields R room1 uci now2 mv hmv hl
        rw [hrem, hroom1]
        dsimp only
        constructor
        · simp only [Clocks.get_set_self]
          ring
        · simp only [Clocks.get_set_other]
      · rw [applyMoveRest_illegal R room1 uci now2 mv hmv hl] at hok
        simp at hok

/-- Witness for C8: in `roomA` (timestamp 5, increment 2, white to move
with 100 seconds) a legal move at wall-clock 6 leaves white with
100 + 2 - 1 = 101 seconds and black untouched. -/
theorem mover_clock_increment_minus_elapsed_witness :
    (applyMove toyRules roomA "e2e4" 6 6).1.remaining.get roomA.turn
      = roomA.remaining.get roomA.turn + (roomA.increment : ℚ) - (6 - 5) ∧
    (applyMove toyRules roomA "e2e4" 6 6).1.remaining.get roomA.turn.other
      = roomA.remaining.get roomA.turn.other :=
  mover_clock_increment_minus_elapsed toyRules roomA "e2e4" 6 6 5 rfl (by norm_num)
    (by norm_num [applyMove, applyMoveRest, toyRules, roomA, tsTruthy, Clocks.set, Clocks.get,
      show ("e2e4" : String).length = 4 from rfl])

/-- C10: `apply_move` checks neither `result` nor `started`.  First part:
a room whose result is already recorded still accepts a parseable legal
move when the charged clock is non-negative — the move is applied and the
recorded result survives only if the new position is not terminal
(otherwise it is overwritten with the oracle's result).  Second part: a
room with no last-move timestamp (never started) also accepts moves, and
no elapsed time is charged: the mover's clock only gains the
increment. -/
theorem applyMove_ignores_status {Pos Move : Type} [DecidableEq Move] (R : Rules Pos Move) :
    (∀ (room : GameRoom Pos) (r uci : String) (mv : Move) (now now2 ts : ℚ),
      room.result = some r → room.lastMoveTs = some ts → ts ≠ 0 →
      0 ≤ room.remaining.get room.turn - (now - ts) →
      R.fromUci uci = some mv → mv ∈ R.legalMoves room.game →
      (applyMove R room uci now now2).2.1 = true ∧
      (applyMove R room uci now now2).1.game = R.push room.game mv ∧
      (applyMove R room uci now now2).1.moveList = room.moveList ++ [uci] ∧
      (applyMove R room uci now now2).1.result
        = (if R.isGameOver (R.push room.game mv)
            then some ((R.result (R.push room.game mv)).getD "1/2-1/2")
            else some r)) ∧
    (∀ (room : GameRoom Pos) (uci : String) (mv : Move) (now now2 : ℚ),
      room.lastMoveTs = none →
      R.fromUci uci = some mv → mv ∈ R.legalMoves room.game →
      (applyMove R room uci now now2).2.1 = true ∧
      (applyMove R room uci now now2).1.game = R.push room.game mv ∧
      (applyMove R room uci now now2).1.moveList = room.moveList ++ [uci] ∧
      (applyMove R room uci now now2).1.remaining.get room.turn
        = room.remaining.get room.turn + (room.increment : ℚ) ∧
      (applyMove R room uci now now2).1.remaining.get room.turn.other
        = room.remaining.get room.turn.other) := by
  constructor
  · intro room r uci mv now now2 ts hr hts hts0 hpos hmv hl
    rw [applyMove_no_forfeit R room uci now now2 ts hts hts0 hpos]
    set room1 : GameRoom Pos :=
      { room with
        remaining := room.remaining.set room.turn
          (room.remaining.get room.turn - (now - ts)) } with hroom1
    have hl1 : mv ∈ R.legalMoves room1.game := hl
    obtain ⟨hok, hg, hm, -, -, hres, -⟩ := applyMoveRest_legal_fields R room1 uci now2 mv hmv hl1
    refine ⟨hok, hg, hm, ?_⟩
    rw [hres, hroom1]
    dsimp only
    rw [hr]
  · intro room uci mv now now2 hts hmv hl
    rw [applyMove_no_ts R room uci now now2 hts]
    obtain ⟨hok, hg, hm, -, hrem, -, -⟩ := applyMoveRest_legal_fields R room uci now2 mv hmv hl
    refine ⟨hok, hg, hm, ?_, ?_⟩
    · rw [hrem, Clocks.get_set_self]
    · rw [hrem, Clocks.get_set_other]

/-- Witness for C10: `roomDone` already records `"1-0"` yet the legal
move `"e2e4"` is applied (first part); the same room with the timestamp
removed (never started) also applies the move with no time charged
(second part). -/
theorem applyMove_ignores_status_witness :
    ((applyMove toyRules roomDone "e2e4" 6 6).2.1 = true ∧
      (applyMove toyRules roomDone "e2e4" 6 6).1.game
        = toyRules.push roomDone.game "e2e4" ∧
      (applyMove toyRules roomDone "e2e4" 6 6).1.moveList
        = roomDone.moveList ++ ["e2e4"] ∧
      (applyMove toyRules roomDone "e2e4" 6 6).1.result
        = (if toyRules.isGameOver (toyRules.push roomDone.game "e2e4")
            then some ((toyRules.result (toyRules.push roomDone.game "e2e4")).getD "1/2-1/2")
            else some "1-0")) ∧
    ((applyMove toyRules { roomDone with lastMoveTs := none } "e2e4" 6 6).2.1 = true ∧
      (applyMove toyRules { roomDone with lastMoveTs := none } "e2e4" 6 6).1.remaining.get
          Side.white
        = roomDone.remaining.get Side.white + (roomDone.increment : ℚ)) := by
  constructor
  · exact (applyMove_ignores_status toyRules).1 roomDone "1-0" "e2e4" "e2e4" 6 6 5 rfl rfl
      (by norm_num) (by norm_num [roomDone, roomA, Clocks.get]) rfl (by decide)
  · obtain ⟨h1, -, -, h4, h5⟩ := (applyMove_ignores_status toyRules).2
      { roomDone with lastMoveTs := none } "e2e4" "e2e4" 6 6 rfl rfl (by decide)
    exact ⟨h1, h4⟩

/-- Witness for the amended C1 at the concrete rejection in `roomA`: the
malformed text `"zz"` leaves the board, history, turn and result alone
while white is charged the elapsed second. -/
theorem rejected_move_preserves_all_but_charged_clock_witness :
    (applyMove toyRules roomA "zz" 6 6).1.game = roomA.game ∧
    (applyMove toyRules roomA "zz" 6 6).1.moveList = roomA.moveList ∧
    (applyMove toyRules roomA "zz" 6 6).1.turn = roomA.turn ∧
    (applyMove toyRules roomA "zz" 6 6).1.result = roomA.result ∧
    (applyMove toyRules roomA "zz" 6 6).1.remaining.get roomA.turn.other
      = roomA.remaining.get roomA.turn.other ∧
    (applyMove toyRules roomA "zz" 6 6).1.remaining.get roomA.turn
      = roomA.remaining.get roomA.turn -
          (if tsTruthy roomA.lastMoveTs then 6 - roomA.lastMoveTs.getD 0 else 0) :=
  rejected_move_preserves_all_but_charged_clock toyRules roomA "zz" 6 6
    (by norm_num [applyMove, applyMoveRest, toyRules, roomA, tsTruthy, Clocks.set, Clocks.get,
      show ("zz" : String).length = 2 from rfl])
    (Or.inl (by norm_num [applyMove, applyMoveRest, toyRules, roomA, tsTruthy, Clocks.set,
      Clocks.get, show ("zz" : String).length = 2 from rfl]))

/-! ### C5: move history length and replay -/

theorem replay_append {Pos Move : Type} (R : Rules Pos Move) (p : Pos)
    (l1 l2 : List String) :
    replay R p (l1 ++ l2) = (replay R p l1).bind (fun q => replay R q l2) := by
  induction l1 generalizing p with
  | nil => simp [replay]
  | cons u rest ih =>
    cases h : R.fromUci u with
    | none => simp [replay, h]
    | some mv => simp [replay, h, ih]

theorem applyMove_game_moveList {Pos Move : Type} [DecidableEq Move] (R : Rules Pos Move)
    (room : GameRoom Pos) (uci : String) (now now2 : ℚ) :
    ((applyMove R room uci now now2).2.1 = false ∧
      (applyMove R room uci now now2).1.game = room.game ∧
      (applyMove R room uci now now2).1.moveList = room.moveList) ∨
    (∃ mv, R.fromUci uci = some mv ∧
      (applyMove R room uci now now2).2.1 = true ∧
      (applyMove R room uci now now2).1.game = R.push room.game mv ∧
      (applyMove R room uci now now2).1.moveList = room.moveList ++ [uci]) := by
  by_cases ht : tsTruthy room.lastMoveTs = true
  · obtain ⟨ts, hts, hts0⟩ := tsTruthy_exists ht
    by_cases hneg : room.remaining.get room.turn - (now - ts) < 0
    · left
      rw [applyMove_forfeit R room uci now now2 ts hts hts0 hneg]
      exact ⟨rfl, rfl, rfl⟩
    · rw [applyMove_no_forfeit R room uci now now2 ts hts hts0 (not_lt.mp hneg)]
      set room1 : GameRoom Pos :=
        { room with
          remaining := room.remaining.set room.turn
            (room.remaining.get room.turn - (now - ts)) } with hroom1
      cases hmv : R.fromUci uci with
      | none =>
        left
        rw [applyMoveRest_parse_fail R room1 uci now2 hmv]
        exact ⟨rfl, rfl, rfl⟩
      | some mv =>
        by_cases hl : mv ∈ R.legalMoves room1.game
        · right
          obtain ⟨hok, hg, hm, -, -, -, -⟩ :=
            applyMoveRest_legal_fields R room1 uci now2 mv hmv hl
          exact ⟨mv, rfl, hok, hg, hm⟩
        · left
          rw [applyMoveRest_illegal R room1 uci now2 mv hmv hl]
          exact ⟨rfl, rfl, rfl⟩
  · have ht' : tsTruthy room.lastMoveTs = false := by simpa using ht
    rw [applyMove_falsy_ts R room uci now now2 ht']
    cases hmv : R.fromUci uci with
    | none =>
      left
      rw [applyMoveRest_parse_fail R room uci now2 hmv]
      exact ⟨rfl, rfl, rfl⟩
    | some mv =>
      by_cases hl : mv ∈ R.legalMoves room.game
      · right
        obtain ⟨hok, hg, hm, -, -, -, -⟩ :=
          applyMoveRest_legal_fields R room uci now2 mv hmv hl
        exact ⟨mv, rfl, hok, hg, hm⟩
      · left
        rw [applyMoveRest_illegal R room uci now2 mv hmv hl]
        exact ⟨rfl, rfl, rfl⟩

theorem runMoves_replay {Pos Move : Type} [DecidableEq Move] (R : Rules Pos Move)
    (reqs : List (String × ℚ × ℚ)) :
    ∀ room : GameRoom Pos, replay R R.start room.moveList = some room.game →
      replay R R.start (runMoves R room reqs).1.moveList
        = some (runMoves R room reqs).1.game ∧
      (runMoves R room reqs).1.moveList.length
        = room.moveList.length + (runMoves R room reqs).2 := by
  induction reqs with
  | nil =>
    intro room h
    exact ⟨h, rfl⟩
  | cons req rest ih =>
    intro room h
    obtain ⟨u, n1, n2⟩ := req
    have hsplit := applyMove_game_moveList R room u n1 n2
    rcases hsplit with ⟨hf, hg, hm⟩ | ⟨mv, hmv, htr, hg, hm⟩
    · have h1 : replay R R.start (applyMove R room u n1 n2).1.moveList
          = some (applyMove R room u n1 n2).1.game := by
        rw [hm, hg]; exact h
      have htail := ih (applyMove R room u n1 n2).1 h1
      refine ⟨htail.1, ?_⟩
      simp only [runMoves]
      rw [htail.2, hm, hf]
      simp
    · have h1 : replay R R.start (applyMove R room u n1 n2).1.moveList
          = some (applyMove R room u n1 n2).1.game := by
        rw [hm, hg, replay_append, h]
        simp [replay, hmv]
      have htail := ih (applyMove R room u n1 n2).1 h1
      refine ⟨htail.1, ?_⟩
      simp only [runMoves]
      rw [htail.2, hm, htr]
      simp [List.length_append]
      omega

/-- C5: starting from a freshly created room, running any sequence of
`apply_move` requests leaves `move_list` with exactly one entry per
successfully applied move, and replaying that list from the initial
position reproduces the room's current position. -/
theorem moveHistory_length_and_replay {Pos Move : Type} [DecidableEq Move]
    (R : Rules Pos Move) (roomId : String) (tc inc : ℤ) (priv : Bool)
    (reqs : List (String × ℚ × ℚ)) :
    (runMoves R (GameRoom.init R roomId tc inc priv) reqs).1.moveList.length
      = (runMoves R (GameRoom.init R roomId tc inc priv) reqs).2 ∧
    replay R R.start (runMoves R (GameRoom.init R roomId tc inc priv) reqs).1.moveList
      = some (runMoves R (GameRoom.init R roomId tc inc priv) reqs).1.game := by
  have h0 : replay R R.start (GameRoom.init R roomId tc inc priv).moveList
      = some (GameRoom.init R roomId tc inc priv).game := by
    simp [GameRoom.init, replay]
  have h := runMoves_replay R reqs (GameRoom.init R roomId tc inc priv) h0
  refine ⟨?_, h.1⟩
  rw [h.2]
  simp [GameRoom.init]

/-! ### C6: the Elo update in finalize_game -/

theorem lookupUser_setUser_self (users : Users) (name : String) (v : UserRec) :
    lookupUser (setUser users name v) name = some v := by
  induction users with
  | nil => simp [setUser, lookupUser]
  | cons kv rest ih =>
    obtain ⟨k, w⟩ := kv
    by_cases h : k = name
    · simp [setUser, lookupUser, h]
    · simp [setUser, lookupUser, h, ih]

theorem lookupUser_setUser_ne (users : Users) (name nm2 : String) (v : UserRec)
    (h : name ≠ nm2) :
    lookupUser (setUser users name v) nm2 = lookupUser users nm2 := by
  induction users with
  | nil => simp [setUser, lookupUser, h]
  | cons kv rest ih =>
    obtain ⟨k, w⟩ := kv
    by_cases hk : k = name
    · subst hk
      simp [setUser, lookupUser, h]
    · simp [setUser, lookupUser, hk, ih]

/-- C6: when both seats are bound to distinct, truthy, registered
usernames different from `"AI"`, finalization writes for each
participant the rating `round(old + 32 * (score - 1/(1 + 10^((opp -
old)/400))))` computed from the two ratings as they stood before either
update, and increments each games-played counter by one; the scores are
1, 1/2 and 0 for win, draw and loss; and when a seat is unbound or bound
to `"AI"`, the users store is left untouched. -/
theorem finalize_elo_update {Pos : Type} (room : GameRoom Pos) (users : Users)
    (uw ub : String) (recW recB : UserRec)
    (hw : room.nameWhite = some uw) (hb : room.nameBlack = some ub)
    (hne : uw ≠ ub) (hw0 : uw ≠ "") (hb0 : ub ≠ "")
    (hwAI : uw ≠ "AI") (hbAI : ub ≠ "AI")
    (hlw : lookupUser users uw = some recW) (hlb : lookupUser users ub = some recB) :
    lookupUser (finalize_game room users) uw
      = some { rating := new_elo recW.rating recB.rating (scoreWhite room.result) 32
               gamesPlayed := recW.gamesPlayed + 1 } ∧
    lookupUser (finalize_game room users) ub
      = some { rating := new_elo recB.rating recW.rating (scoreBlack room.result) 32
               gamesPlayed := recB.gamesPlayed + 1 } ∧
    (∀ (r opp : ℤ) (s : ℚ),
      new_elo r opp s 32
        = round ((r : ℝ) + 32 * ((s : ℝ)
            - 1 / (1 + (10 : ℝ) ^ (((opp : ℝ) - (r : ℝ)) / 400))))) ∧
    scoreWhite (some "1-0") = 1 ∧ scoreBlack (some "1-0") = 0 ∧
    scoreWhite (some "0-1") = 0 ∧ scoreBlack (some "0-1") = 1 ∧
    scoreWhite (some "1/2-1/2") = 1 / 2 ∧ scoreBlack (some "1/2-1/2") = 1 / 2 ∧
    (∀ (room2 : GameRoom Pos) (users2 : Users),
      (room2.nameWhite = none ∨ room2.nameBlack = none ∨
       room2.nameWhite = some "AI" ∨ room2.nameBlack = some "AI") →
      finalize_game room2 users2 = users2) := by
  have hstep : finalize_game room users
      = setUser (setUser users uw
          { rating := new_elo recW.rating recB.rating (scoreWhite room.result) 32
            gamesPlayed := recW.gamesPlayed + 1 }) ub
          { rating := new_elo recB.rating recW.rating (scoreBlack room.result) 32
            gamesPlayed := recB.gamesPlayed + 1 } := by
    unfold finalize_game
    rw [hw, hb]
    dsimp only
    rw [hlw, hlb]
    dsimp only
    rw [if_pos ⟨hw0, hb0, hwAI, hbAI⟩]
    simp only [Option.map_some', Option.getD_some]
    rw [lookupUser_setUser_ne users uw ub _ hne, hlb]
    simp only [Option.map_some', Option.getD_some]
  refine ⟨?_, ?_, ?_, by unfold scoreWhite; rw [if_pos rfl],
    by unfold scoreBlack; rw [if_pos rfl],
    by unfold scoreWhite; rw [if_neg (by decide), if_pos rfl],
    by unfold scoreBlack; rw [if_neg (by decide), if_pos rfl],
    by unfold scoreWhite; rw [if_neg (by decide), if_neg (by decide)],
    by unfold scoreBlack; rw [if_neg (by decide), if_neg (by decide)], ?_⟩
  · rw [hstep, lookupUser_setUser_ne _ ub uw _ hne.symm, lookupUser_setUser_self]
  · rw [hstep, lookupUser_setUser_self]
  · intro r opp s
    unfold new_elo expected_score
    norm_num
  · intro room2 users2 h
    unfold finalize_game
    rcases h with h | h | h | h
    · rw [h]
    · cases hW : room2.nameWhite <;> rw [h]
    · rw [h]
      cases hB : room2.nameBlack with
      | none => rfl
      | some ub2 =>
        dsimp only
        cases hLW : lookupUser users2 "AI" with
        | none => cases hLB : lookupUser users2 ub2 <;> rfl
        | some recW2 =>
          cases hLB : lookupUser users2 ub2 with
          | none => rfl
          | some recB2 =>
            dsimp only
            rw [if_neg (by simp)]
    · rw [h]
      cases hW : room2.nameWhite with
      | none => rfl
      | some uw2 =>
        dsimp only
        cases hLW : lookupUser users2 uw2 with
        | none => cases hLB : lookupUser users2 "AI" <;> rfl
        | some recW2 =>
          cases hLB : lookupUser users2 "AI" with
          | none => rfl
          | some recB2 =>
            dsimp only
            rw [if_neg (by simp)]

/-- Witness for C6: finalizing `roomDone` (a `"1-0"` result between
registered players alice and bob) writes both Elo updates from the
pre-game ratings and bumps both games-played counters. -/
theorem finalize_elo_update_witness :
    lookupUser (finalize_game roomDone usersAB2) "alice"
      = some { rating := new_elo 1200 1200 (scoreWhite roomDone.result) 32
               gamesPlayed := 1 } ∧
    lookupUser (finalize_game roomDone usersAB2) "bob"
      = some { rating := new_elo 1200 1200 (scoreBlack roomDone.result) 32
               gamesPlayed := 4 } :=
  ⟨(finalize_elo_update roomDone usersAB2 "alice" "bob"
      { rating := 1200, gamesPlayed := 0 } { rating := 1200, gamesPlayed := 3 }
      rfl rfl (by decide) (by decide) (by decide) (by decide) (by decide)
      (by decide) (by decide)).1,
   (finalize_elo_update roomDone usersAB2 "alice" "bob"
      { rating := 1200, gamesPlayed := 0 } { rating := 1200, gamesPlayed := 3 }
      rfl rfl (by decide) (by decide) (by decide) (by decide) (by decide)
      (by decide) (by decide)).2.1⟩

/-! ### C7: spectators and move rights -/

/-- C7 counterexample: after three joins the third connection is
registered as a spectator, yet a `"move"` websocket message handled for
that spectator connection goes through `apply_move` and changes the
room's position, turn, move history and clocks. -/
theorem spectator_move_mutates_room_cex :
    spectatorJoin.2 = "spectator" ∧
    3 ∈ spectatorJoin.1.spectators ∧
    (wsMoveStep toyRules "spectator" roomWithSpectator usersAB "e2e4" 11 11).1.game
      ≠ roomWithSpectator.game ∧
    (wsMoveStep toyRules "spectator" roomWithSpectator usersAB "e2e4" 11 11).1.turn
      ≠ roomWithSpectator.turn ∧
    (wsMoveStep toyRules "spectator" roomWithSpectator usersAB "e2e4" 11 11).1.moveList
      ≠ roomWithSpectator.moveList ∧
    (wsMoveStep toyRules "spectator" roomWithSpectator usersAB "e2e4" 11 11).1.remaining
      ≠ roomWithSpectator.remaining := by
  refine ⟨rfl, ?_, ?_⟩
  · norm_num [spectatorJoin, roomTwoSeated, GameRoom.add_player, GameRoom.init]
  · norm_num [wsMoveStep, applyMove, applyMoveRest, toyRules, roomWithSpectator, spectatorJoin,
      roomTwoSeated, GameRoom.add_player, GameRoom.init, GameRoom.start_if_ready, tsTruthy,
      Clocks.set, Clocks.get, Side.other, Side.name, containsSub,
      show ("e2e4" : String).length = 4 from rfl]
    decide

/-- C7 (amended): the websocket move handler never consults the sender's
role: handling a move message for a connection registered as a spectator
is literally the same computation as handling it for a seated player, so
a spectator connection has exactly the same move rights as a seated
one. -/
theorem ws_move_step_ignores_role {Pos Move : Type} [DecidableEq Move] (R : Rules Pos Move)
    (role1 role2 : String) (room : GameRoom Pos) (users : Users) (uci : String)
    (now now2 : ℚ) :
    wsMoveStep R role1 room users uci now now2
      = wsMoveStep R role2 room users uci now now2 := rfl

theorem expected_score_self (r : ℤ) : expected_score r r = 1 / 2 := by
  unfold expected_score
  rw [sub_self, zero_div, Real.rpow_zero]
  norm_num

theorem new_elo_1200_loss : new_elo 1200 1200 0 32 = 1184 := by
  unfold new_elo
  rw [expected_score_self]
  rw [show ((1200 : ℤ) : ℝ) + ((32 : ℤ) : ℝ) * (((0 : ℚ) : ℝ) - 1 / 2) = ((1184 : ℤ) : ℝ) by
    push_cast; norm_num]
  exact round_intCast 1184

theorem new_elo_1200_win : new_elo 1200 1200 1 32 = 1216 := by
  unfold new_elo
  rw [expected_score_self]
  rw [show ((1200 : ℤ) : ℝ) + ((32 : ℤ) : ℝ) * (((1 : ℚ) : ℝ) - 1 / 2) = ((1216 : ℤ) : ℝ) by
    push_cast; norm_num]
  exact round_intCast 1216

theorem new_elo_1200_draw : new_elo 1200 1200 (1 / 2) 32 = 1200 := by
  unfold new_elo
  rw [expected_score_self]
  rw [show ((1200 : ℤ) : ℝ) + ((32 : ℤ) : ℝ) * (((1 / 2 : ℚ) : ℝ) - 1 / 2) = ((1200 : ℤ) : ℝ) by
    push_cast; norm_num]
  exact round_intCast 1200

/-! ### C3: double finalization after a time forfeit -/

/-- C3 refutation: in `roomA` with registered players alice and bob, a
move attempt at wall-clock 200 forfeits on time and finalizes once
(ratings move from 1200/1200 to 1184/1216, each games-played counter
reaches 1); a second move attempt at 210 re-enters the forfeit branch
and finalizes again, applying the rating update a second time for the
same terminating event: both games-played counters reach 2. -/
theorem double_forfeit_double_rating_update :
    (lookupUser (wsMoveStep toyRules "white" roomA usersAB "e2e4" 200 200).2 "alice").map
        (fun u => u.gamesPlayed) = some 1 ∧
    (lookupUser (wsMoveStep toyRules "white" roomA usersAB "e2e4" 200 200).2 "bob").map
        (fun u => u.gamesPlayed) = some 1 ∧
    (lookupUser (wsMoveStep toyRules "white" roomA usersAB "e2e4" 200 200).2 "alice").map
        (fun u => u.rating) = some 1184 ∧
    (lookupUser (wsMoveStep toyRules "white" roomA usersAB "e2e4" 200 200).2 "bob").map
        (fun u => u.rating) = some 1216 ∧
    (lookupUser
        (wsMoveStep toyRules "white"
          (wsMoveStep toyRules "white" roomA usersAB "e2e4" 200 200).1
          (wsMoveStep toyRules "white" roomA usersAB "e2e4" 200 200).2 "f2f4" 210 210).2
        "alice").map (fun u => u.gamesPlayed) = some 2 ∧
    (lookupUser
        (wsMoveStep toyRules "white"
          (wsMoveStep toyRules "white" roomA usersAB "e2e4" 200 200).1
          (wsMoveStep toyRules "white" roomA usersAB "e2e4" 200 200).2 "f2f4" 210 210).2
        "bob").map (fun u => u.gamesPlayed) = some 2 := by
  have hbw : Side.black ≠ Side.white := by decide
  have happ : ("time forfeit; winner " ++ "black" : String) = "time forfeit; winner black" := rfl
  have hcs : containsSub "time forfeit" "time forfeit; winner black" = true := by decide
  have hab : ("alice" : String) ≠ "bob" := by decide
  have h01 : ("0-1" : String) ≠ "1-0" := by decide
  norm_num [wsMoveStep, applyMove, applyMoveRest, toyRules, roomA, usersAB, tsTruthy, hab, h01,
    new_elo_1200_loss, new_elo_1200_win,
    Clocks.set, Clocks.get, Side.other, Side.name, finalize_game, scoreWhite, scoreBlack,
    lookupUser, setUser, hbw, happ, hcs, show ("e2e4" : String).length = 4 from rfl,
    show ("f2f4" : String).length = 4 from rfl]

/-! ### C9: the automated opponent's move choice -/

theorem random_ai_move_spec {Pos Move : Type} (R : Rules Pos Move) (pick : ℕ) (fen : String) :
    (random_ai_move R pick fen = none → R.legalMoves (R.ofFen fen) = []) ∧
    (∀ u, random_ai_move R pick fen = some u →
      ∃ mv, mv ∈ R.legalMoves (R.ofFen fen) ∧ u = R.uciOf mv) := by
  unfold random_ai_move
  cases h : R.legalMoves (R.ofFen fen) with
  | nil => simp [h]
  | cons m ms =>
    simp only [h]
    constructor
    · intro hnone
      simp at hnone
    · intro u hu
      refine ⟨(m :: ms).get ⟨pick % (m :: ms).length, Nat.mod_lt _ (Nat.succ_pos _)⟩,
        List.get_mem _ _ _, ?_⟩
      exact (Option.some.inj hu).symm

/-- C9: whatever the external suggestion (already `None` on any service
error), the automated opponent's chosen move is either the UCI text of a
move in the legal-move set of the position rebuilt from the FEN, or no
move at all — and no move happens only when that position has no legal
moves, i.e. the game is already over. -/
theorem choose_ai_move_legal_or_none {Pos Move : Type} [DecidableEq Move] (R : Rules Pos Move)
    (suggestion : Option String) (pick : ℕ) (fen : String) :
    (choose_ai_move R suggestion pick fen = none → R.legalMoves (R.ofFen fen) = []) ∧
    (∀ u, choose_ai_move R suggestion pick fen = some u →
      ∃ mv, mv ∈ R.legalMoves (R.ofFen fen) ∧ u = R.uciOf mv) := by
  unfold choose_ai_move
  cases suggestion with
  | none => exact random_ai_move_spec R pick fen
  | some candidate =>
    by_cases hemp : candidate.isEmpty
    · dsimp only
      rw [if_pos hemp]
      exact random_ai_move_spec R pick fen
    · dsimp only
      rw [if_neg hemp]
      by_cases hguard : (candidate.length = 4 ∨ candidate.length = 5) ∧
          candidate.toList.all Char.isAlphanum
      · rw [if_pos hguard]
        cases hmv : R.fromUci candidate with
        | none =>
          dsimp only
          cases hsan : R.parseSan (R.ofFen fen) candidate with
          | none => exact random_ai_move_spec R pick fen
          | some mv2 =>
            dsimp only
            by_cases hleg2 : mv2 ∈ R.legalMoves (R.ofFen fen)
            · rw [if_pos hleg2]
              constructor
              · intro h
                simp at h
              · intro u hu
                exact ⟨mv2, hleg2, (Option.some.inj hu).symm⟩
            · rw [if_neg hleg2]
              exact random_ai_move_spec R pick fen
        | some mv =>
          dsimp only
          by_cases hleg : mv ∈ R.legalMoves (R.ofFen fen)
          · rw [if_pos hleg]
            dsimp only
            constructor
            · intro h
              simp at h
            · intro u hu
              exact ⟨mv, hleg, (Option.some.inj hu).symm⟩
          · rw [if_neg hleg]
            dsimp only
            cases hsan : R.parseSan (R.ofFen fen) candidate with
            | none => exact random_ai_move_spec R pick fen
            | some mv2 =>
              dsimp only
              by_cases hleg2 : mv2 ∈ R.legalMoves (R.ofFen fen)
              · rw [if_pos hleg2]
                constructor
                · intro h
                  simp at h
                · intro u hu
                  exact ⟨mv2, hleg2, (Option.some.inj hu).symm⟩
              · rw [if_neg hleg2]
                exact random_ai_move_spec R pick fen
      · rw [if_neg hguard]
        dsimp only
        cases hsan : R.parseSan (R.ofFen fen) candidate with
        | none => exact random_ai_move_spec R pick fen
        | some mv2 =>
          dsimp only
          by_cases hleg2 : mv2 ∈ R.legalMoves (R.ofFen fen)
          · rw [if_pos hleg2]
            constructor
            · intro h
              simp at h
            · intro u hu
              exact ⟨mv2, hleg2, (Option.some.inj hu).symm⟩
          · rw [if_neg hleg2]
            exact random_ai_move_spec R pick fen

/-- Witness for C9 at a concrete input: with no suggestion available the
fallback picks a legal move of the toy position, and it is indeed in the
legal-move set. -/
theorem choose_ai_move_legal_or_none_witness :
    choose_ai_move toyRules none 0 "" = some "e2e4" ∧
    (∃ mv, mv ∈ toyRules.legalMoves (toyRules.ofFen "") ∧ "e2e4" = toyRules.uciOf mv) :=
  ⟨by decide,
   (choose_ai_move_legal_or_none toyRules none 0 "").2 "e2e4" (by decide)⟩
